import Mathlib

/-!
Shallow embedding of the CSV-processing utility (`src/main.py`):
row filtering (`apply_filter`), aggregation (`apply_agg`) and the two
expression parsers (`parse_filter`, `parse_agg`).  Rows are association
lists from column names to cell text; Python `float()` on plain decimal
literals is modelled by `parseFloat?` over `ℚ`; Python exceptions become
an explicit `Except` error type, with one constructor per raise site.
-/

namespace CsvProc

/-- One error constructor per distinct Python raise site reachable from the
core functions.  `keyError` models the `KeyError` a dict lookup would raise
on a row missing the column; `emptySequence` models `min()`/`max()` on an
empty sequence (unreachable from `apply_agg` since the empty table returns
early). -/
inductive Err where
  | invalidExpression
  | columnNotFound
  | nonNumericValue
  | unknownFunction
  | keyError
  | emptySequence
deriving DecidableEq, Repr

/-- A row of the table: a mapping from column name to cell text, modelled as
an association list (Python `dict` from `csv.DictReader`). -/
def Row : Type := List (String × String)

instance : DecidableEq Row := by unfold Row; infer_instance

/-- `row[col]` / `col in row` support: the cell of `row` at column `col`. -/
def Row.cell (row : Row) (col : String) : Option String :=
  List.lookup col row

/-- All characters of `l` are decimal digits. -/
def allDigits (l : List Char) : Bool :=
  l.all Char.isDigit

/-- Value of a digit string, most significant first. -/
def digitsToNat (l : List Char) : ℕ :=
  l.foldl (fun a c => a * 10 + (c.toNat - 48)) 0

/-- Split a character list at the first `'.'`: returns the part before it and,
when a dot is present, the part after it. -/
def splitAtDot : List Char → List Char × Option (List Char)
  | [] => ([], none)
  | c :: rest =>
    if c = '.' then ([], some rest)
    else
      let (a, b) := splitAtDot rest
      (c :: a, b)

/-- Model of Python `float(s)` on plain decimal literals (optional sign,
integer part, optional fractional part; at least one digit), returning the
exact rational value, or `none` when `float` raises `ValueError`.  Exotic
forms (`inf`, `nan`, exponents, surrounding whitespace) are outside the
model; no claim depends on them. -/
def parseFloat? (s : String) : Option ℚ :=
  let (sign, body) :=
    match s.data with
    | '-' :: rest => ((-1 : ℚ), rest)
    | '+' :: rest => ((1 : ℚ), rest)
    | l => ((1 : ℚ), l)
  match splitAtDot body with
  | (ip, none) =>
    if ip ≠ [] ∧ allDigits ip then some (sign * (digitsToNat ip : ℚ)) else none
  | (ip, some fp) =>
    if (ip ≠ [] ∨ fp ≠ []) ∧ allDigits ip ∧ allDigits fp then
      some (sign * ((digitsToNat ip : ℚ) + (digitsToNat fp : ℚ) / (10 : ℚ) ^ fp.length))
    else none

/-- The operator characters recognised by `parse_filter`. -/
def opChars : List Char := ['>', '<', '=']

/-- Left-to-right scan of `parse_filter`: find the first operator character,
returning the characters before it, the character, and the characters after. -/
def parse_filter_go : List Char → Option (List Char × Char × List Char)
  | [] => none
  | c :: rest =>
    if c ∈ opChars then some ([], c, rest)
    else
      match parse_filter_go rest with
      | none => none
      | some (pre, op, post) => some (c :: pre, op, post)

/-- `parse_filter` from `src/main.py`: split a filter expression at the first
occurrence of `>`, `<` or `=` into (column, operator, operand); raise
`ValueError` (`invalidExpression`) when no operator character occurs. -/
def parse_filter (expr : String) : Except Err (String × String × String) :=
  match parse_filter_go expr.data with
  | none => .error .invalidExpression
  | some (pre, op, post) => .ok (String.mk pre, String.mk [op], String.mk post)

/-- Split a character list at the first `'('` (Python `s.split('(', 1)` when
it yields two pieces): parts before and after, or `none` when no `'('`. -/
def splitParen : List Char → Option (List Char × List Char)
  | [] => none
  | c :: rest =>
    if c = '(' then some ([], rest)
    else
      match splitParen rest with
      | none => none
      | some (a, b) => some (c :: a, b)

/-- `parse_agg` from `src/main.py`: the expression must end with `')'`; the
text without that `')'` is split at the first `'('` into (function, column).
A missing trailing `')'` or a failed split raises `ValueError`
(`invalidExpression`). -/
def parse_agg (expr : String) : Except Err (String × String) :=
  if expr.data.getLast? = some ')' then
    match splitParen expr.data.dropLast with
    | none => .error .invalidExpression
    | some (f, c) => .ok (String.mk f, String.mk c)
  else .error .invalidExpression

/-- The per-row keep decision of `apply_filter` in numeric mode, given the
cell value `c` and the operand value `q` (the Python `if`/`elif` chain over
`op`). -/
def keepNum (op : String) (c q : ℚ) : Bool :=
  if op = "=" ∧ c = q then true
  else if op = ">" ∧ q < c then true
  else if op = "<" ∧ c < q then true
  else false

/-- The per-row keep decision of `apply_filter` in text mode: Python string
comparison, lexicographic by code point, which `String.lt` matches. -/
def keepStr (op : String) (cell value : String) : Bool :=
  if op = "=" ∧ cell = value then true
  else if op = ">" ∧ value < cell then true
  else if op = "<" ∧ cell < value then true
  else false

/-- The keep decision of `apply_filter` for one cell, once the mode is
fixed: `mode = some q` is numeric mode (a cell that fails to parse is
skipped silently via the `except ValueError: continue`), `mode = none` is
text mode. -/
def keepCell (op : String) (mode : Option ℚ) (value cell : String) : Bool :=
  match mode with
  | some q =>
    match parseFloat? cell with
    | none => false
    | some c => keepNum op c q
  | none => keepStr op cell value

/-- The loop of `apply_filter`: walk the rows, keeping those whose cell
satisfies the comparison.  A row missing the column raises `KeyError`,
aborting the loop. -/
def filterLoop (col op : String) (mode : Option ℚ) (value : String) :
    List Row → Except Err (List Row)
  | [] => .ok []
  | row :: rest =>
    match row.cell col with
    | none => .error .keyError
    | some cell =>
      match filterLoop col op mode value rest with
      | .error e => .error e
      | .ok tail => .ok (if keepCell op mode value cell then row :: tail else tail)

/-- `apply_filter` from `src/main.py`: empty table returned unchanged;
`ValueError` (`columnNotFound`) when the column is absent from the first
row; otherwise resolve numeric vs text mode from the operand once and filter
the rows, preserving order. -/
def apply_filter (data : List Row) (col op value : String) :
    Except Err (List Row) :=
  match data with
  | [] => .ok []
  | first :: _ =>
    if (first.cell col).isSome then
      filterLoop col op (parseFloat? value) value data
    else .error .columnNotFound

/-- Round-half-to-even to an integer (the rule of Python `round` on the
exact decimal value). -/
def roundHalfEven (q : ℚ) : ℤ :=
  let f := ⌊q⌋
  if q - f < 1 / 2 then f
  else if q - f > 1 / 2 then f + 1
  else if f % 2 = 0 then f else f + 1

/-- Model of Python `round(x, 2)`: round-half-to-even at two decimal
places on the exact rational value (the float representation artefacts of
the host are outside the model). -/
def round2 (q : ℚ) : ℚ :=
  (roundHalfEven (q * 100) : ℚ) / 100

/-- One step of the value-collection loop of `apply_agg`:
`float(row[col])`.  A missing column raises `KeyError`, a cell that fails
to parse raises `ValueError` (`nonNumericValue`). -/
def parseCell (col : String) (row : Row) : Except Err ℚ :=
  match row.cell col with
  | none => .error .keyError
  | some cell =>
    match parseFloat? cell with
    | none => .error .nonNumericValue
    | some q => .ok q

/-- The value-collection loop of `apply_agg`: parse every cell of `col` as
a number; the first failing row aborts the loop with its error. -/
def parseCells (col : String) : List Row → Except Err (List ℚ)
  | [] => .ok []
  | row :: rest =>
    match parseCell col row with
    | .error e => .error e
    | .ok q =>
      match parseCells col rest with
      | .error e => .error e
      | .ok qs => .ok (q :: qs)

/-- The function-name dispatch of `apply_agg` over the collected numeric
values: `avg` is the mean rounded to two decimals, `min`/`max` fold the
comparison over the values (Python `min()`/`max()` of a list), anything
else raises `ValueError` (`unknownFunction`). -/
def aggOfValues (func : String) (values : List ℚ) : Except Err (Option ℚ) :=
  if func = "avg" then
    .ok (some (round2 (values.sum / (values.length : ℚ))))
  else if func = "min" then
    match values with
    | [] => .error .emptySequence
    | x :: xs => .ok (some (xs.foldl min x))
  else if func = "max" then
    match values with
    | [] => .error .emptySequence
    | x :: xs => .ok (some (xs.foldl max x))
  else .error .unknownFunction

/-- `apply_agg` from `src/main.py`: `none` for the empty table; `ValueError`
(`columnNotFound`) when the column is absent from the first row; collect all
cell values as numbers, then dispatch on the function name. -/
def apply_agg (data : List Row) (col func : String) : Except Err (Option ℚ) :=
  match data with
  | [] => .ok none
  | first :: _ =>
    if (first.cell col).isSome then
      match parseCells col data with
      | .error e => .error e
      | .ok values => aggOfValues func values
    else .error .columnNotFound

/-- The four example rows used throughout §8 of the spec (product, price,
stock), as loaded from the test fixture CSV. -/
def exampleRows : List Row :=
  [[("product", "Apple"), ("price", "100"), ("stock", "50")],
   [("product", "Banana"), ("price", "50"), ("stock", "100")],
   [("product", "Orange"), ("price", "75"), ("stock", "75")],
   [("product", "Milk"), ("price", "120"), ("stock", "30")]]

/-- The pointwise keep decision of a whole row, as resolved by
`apply_filter` once the mode is fixed: a row whose cell is missing or, in
numeric mode, fails to parse, is simply not kept. -/
def keepRow (col op : String) (mode : Option ℚ) (value : String) (row : Row) :
    Bool :=
  match row.cell col with
  | none => false
  | some cell => keepCell op mode value cell

/-- Spec-side numeric comparison: `=` strict equality, `>` strictly
greater, `<` strictly less (written from the spec's words, to be compared
with `keepNum` from the code). -/
def specNumKeep (op : String) (c q : ℚ) : Bool :=
  (op = "=" && decide (c = q)) || (op = ">" && decide (q < c)) ||
    (op = "<" && decide (c < q))

/-- Spec-side text comparison: `=` exact equality, `>`/`<` lexicographic
(written from the spec's words, to be compared with `keepStr` from the
code). -/
def specTextKeep (op : String) (cell value : String) : Bool :=
  (op = "=" && decide (cell = value)) || (op = ">" && decide (value < cell)) ||
    (op = "<" && decide (cell < value))

/-! ### Characterisation of the two parsers -/

theorem parse_filter_go_eq_none {l : List Char} :
    parse_filter_go l = none ↔ ∀ c ∈ l, c ∉ opChars := by
  induction l with
  | nil => simp [parse_filter_go]
  | cons c rest ih =>
    simp only [parse_filter_go]
    by_cases hc : c ∈ opChars
    · simp [hc]
    · simp only [if_neg hc]
      cases hgo : parse_filter_go rest with
      | none => simpa [hc] using ih.mp hgo
      | some v =>
        obtain ⟨pre, op, post⟩ := v
        simp only [List.mem_cons]
        constructor
        · intro h; cases h
        · intro h
          have : parse_filter_go rest = none := ih.mpr (fun a ha => h a (Or.inr ha))
          rw [hgo] at this; cases this

theorem parse_filter_go_split {l₁ : List Char} {c : Char} {l₂ : List Char}
    (hc : c ∈ opChars) (hpre : ∀ a ∈ l₁, a ∉ opChars) :
    parse_filter_go (l₁ ++ c :: l₂) = some (l₁, c, l₂) := by
  induction l₁ with
  | nil => simp [parse_filter_go, hc]
  | cons a rest ih =>
    have ha : a ∉ opChars := hpre a (List.mem_cons_self a rest)
    simp only [List.cons_append, parse_filter_go, if_neg ha, List.append_eq]
    rw [ih (fun b hb => hpre b (List.mem_cons_of_mem a hb))]

theorem splitParen_eq_none {l : List Char} :
    splitParen l = none ↔ '(' ∉ l := by
  induction l with
  | nil => simp [splitParen]
  | cons c rest ih =>
    simp only [splitParen]
    by_cases hc : c = '('
    · simp [hc]
    · simp only [if_neg hc]
      cases hs : splitParen rest with
      | none => simp [List.mem_cons, hc, ← ih, hs, Ne.symm hc]
      | some v =>
        obtain ⟨a, b⟩ := v
        simp only [List.mem_cons]
        constructor
        · intro h; cases h
        · intro h
          have : splitParen rest = none := ih.mpr (fun hm => h (Or.inr hm))
          rw [hs] at this; cases this

theorem splitParen_split {l₁ l₂ : List Char} (hpre : '(' ∉ l₁) :
    splitParen (l₁ ++ '(' :: l₂) = some (l₁, l₂) := by
  induction l₁ with
  | nil => simp [splitParen]
  | cons a rest ih =>
    have ha : a ≠ '(' := fun h => hpre (h ▸ List.mem_cons_self a rest)
    simp only [List.cons_append, splitParen, if_neg ha, List.append_eq]
    rw [ih (fun hm => hpre (List.mem_cons_of_mem a hm))]

/-- **C3.** `parse_condition` (`parse_filter` in the code) fails with
`InvalidExpression` iff no character of `{>, <, =}` occurs in the
expression; otherwise it splits the expression at the first such character
into (column, operator, operand).  Includes the two worked examples of the
spec. -/
theorem parse_filter_contract :
    (∀ expr : String,
      parse_filter expr = .error .invalidExpression ↔
        ∀ c ∈ expr.data, c ∉ (['>', '<', '='] : List Char)) ∧
    (∀ (expr : String) (l₁ : List Char) (c : Char) (l₂ : List Char),
      expr.data = l₁ ++ c :: l₂ →
      c ∈ (['>', '<', '='] : List Char) →
      (∀ a ∈ l₁, a ∉ (['>', '<', '='] : List Char)) →
      parse_filter expr = .ok (String.mk l₁, String.mk [c], String.mk l₂)) ∧
    parse_filter "price>100" = .ok ("price", ">", "100") ∧
    parse_filter "price_100" = .error .invalidExpression := by
  refine ⟨fun expr => ?_, fun expr l₁ c l₂ hdec hc hpre => ?_, rfl, rfl⟩
  · rw [show (['>', '<', '='] : List Char) = opChars from rfl]
    unfold parse_filter
    cases hgo : parse_filter_go expr.data with
    | none => simpa [parse_filter_go_eq_none] using hgo
    | some v =>
      obtain ⟨pre, op, post⟩ := v
      constructor
      · intro h; cases h
      · intro h
        have : parse_filter_go expr.data = none := parse_filter_go_eq_none.mpr h
        rw [hgo] at this; cases this
  · unfold parse_filter
    rw [hdec, parse_filter_go_split hc hpre]

/-- **C3 witness**: the general splitting clause instantiated at
`"price>100"`. -/
theorem parse_filter_contract_witness :
    parse_filter "price>100" =
      .ok (String.mk ['p', 'r', 'i', 'c', 'e'], String.mk ['>'],
           String.mk ['1', '0', '0']) :=
  parse_filter_contract.2.1 "price>100" ['p', 'r', 'i', 'c', 'e'] '>'
    ['1', '0', '0'] rfl (by decide) (by decide)

/-- **C4.** `parse_aggregate` (`parse_agg` in the code) fails with
`InvalidExpression` iff the expression does not end with `')'` or contains
no `'('`; otherwise it splits at the first `'('`, the function name before
it and the column between it and the trailing `')'`.  Includes the two
worked examples of the spec. -/
theorem parse_agg_contract :
    (∀ expr : String,
      parse_agg expr = .error .invalidExpression ↔
        (expr.data.getLast? ≠ some ')' ∨ '(' ∉ expr.data)) ∧
    (∀ (expr : String) (l₁ l₂ : List Char),
      expr.data = l₁ ++ '(' :: l₂ ++ [')'] →
      '(' ∉ l₁ →
      parse_agg expr = .ok (String.mk l₁, String.mk l₂)) ∧
    parse_agg "avg(price)" = .ok ("avg", "price") ∧
    parse_agg "avg(price" = .error .invalidExpression := by
  refine ⟨fun expr => ?_, fun expr l₁ l₂ hdec hpre => ?_, rfl, rfl⟩
  · unfold parse_agg
    by_cases hlast : expr.data.getLast? = some ')'
    · simp only [hlast, if_pos rfl]
      have hdecomp : expr.data.dropLast ++ [')'] = expr.data :=
        List.dropLast_append_getLast? ')' hlast
      have hmem : '(' ∈ expr.data ↔ '(' ∈ expr.data.dropLast := by
        rw [← hdecomp]; simp
      cases hs : splitParen expr.data.dropLast with
      | none =>
        have := splitParen_eq_none.mp hs
        simp [hlast, hmem, this]
      | some v =>
        obtain ⟨a, b⟩ := v
        have : ¬ '(' ∉ expr.data.dropLast := by
          intro h
          have : splitParen expr.data.dropLast = none := splitParen_eq_none.mpr h
          rw [hs] at this; cases this
        constructor
        · intro h; cases h
        · intro h
          rcases h with h | h
          · exact absurd rfl h
          · exact absurd (fun hm => h (hmem.mpr hm)) (by simpa using this)
    · simp [parse_agg, hlast]
  · have hassoc : l₁ ++ '(' :: l₂ ++ [')'] = (l₁ ++ '(' :: l₂) ++ [')'] := by
      simp
    have hlast : expr.data.getLast? = some ')' := by
      rw [hdec, hassoc, List.getLast?_concat]
    have hdrop : expr.data.dropLast = l₁ ++ '(' :: l₂ := by
      rw [hdec, hassoc, List.dropLast_concat]
    unfold parse_agg
    rw [if_pos hlast, hdrop, splitParen_split hpre]

/-- **C4 witness**: the general splitting clause instantiated at
`"avg(price)"`. -/
theorem parse_agg_contract_witness :
    parse_agg "avg(price)" =
      .ok (String.mk ['a', 'v', 'g'], String.mk ['p', 'r', 'i', 'c', 'e']) :=
  parse_agg_contract.2.1 "avg(price)" ['a', 'v', 'g'] ['p', 'r', 'i', 'c', 'e']
    rfl (by decide)
/-! ### The filter evaluator -/

theorem keepNum_eq_spec (op : String) (c q : ℚ) :
    keepNum op c q = specNumKeep op c q := by
  unfold keepNum specNumKeep
  split_ifs with h1 h2 h3 <;> simp_all

theorem keepStr_eq_spec (op : String) (cell value : String) :
    keepStr op cell value = specTextKeep op cell value := by
  unfold keepStr specTextKeep
  split_ifs with h1 h2 h3 <;> simp_all

theorem keepCell_num (op value : String) (q : ℚ) (cell : String) :
    keepCell op (some q) value cell =
      match parseFloat? cell with
      | none => false
      | some c => specNumKeep op c q := by
  show (match parseFloat? cell with
        | none => false
        | some c => keepNum op c q) = _
  cases parseFloat? cell with
  | none => rfl
  | some c => exact keepNum_eq_spec op c q

theorem keepCell_text (op value cell : String) :
    keepCell op none value cell = specTextKeep op cell value :=
  keepStr_eq_spec op cell value

theorem apply_filter_cons (first : Row) (rest : List Row)
    (col op value : String) :
    apply_filter (first :: rest) col op value =
      if (Row.cell first col).isSome then
        filterLoop col op (parseFloat? value) value (first :: rest)
      else .error .columnNotFound := rfl

theorem keepRow_of_cell {col : String} {row : Row} {cell : String}
    (hcell : Row.cell row col = some cell) (op : String) (mode : Option ℚ)
    (value : String) :
    keepRow col op mode value row = keepCell op mode value cell := by
  unfold keepRow
  rw [hcell]

theorem filterLoop_eq_filter {col op : String} {mode : Option ℚ}
    {value : String} {data : List Row}
    (h : ∀ r ∈ data, (Row.cell r col).isSome) :
    filterLoop col op mode value data =
      .ok (data.filter (keepRow col op mode value)) := by
  induction data with
  | nil => rfl
  | cons row rest ih =>
    have hrow : (Row.cell row col).isSome :=
      h row (List.mem_cons_self row rest)
    obtain ⟨cell, hcell⟩ := Option.isSome_iff_exists.mp hrow
    have hrest := ih (fun r hr => h r (List.mem_cons_of_mem row hr))
    simp only [filterLoop, hcell, hrest, List.filter_cons,
      keepRow_of_cell hcell op mode value]

theorem filterLoop_ok_forall {col op : String} {mode : Option ℚ}
    {value : String} {data : List Row} {L : List Row}
    (h : filterLoop col op mode value data = .ok L) :
    ∀ r ∈ data, (Row.cell r col).isSome := by
  induction data generalizing L with
  | nil => intro r hr; cases hr
  | cons row rest ih =>
    intro r hr
    simp only [filterLoop] at h
    cases hcell : Row.cell row col with
    | none => rw [hcell] at h; cases h
    | some cell =>
      rw [hcell] at h
      cases hloop : filterLoop col op mode value rest with
      | error e => rw [hloop] at h; cases h
      | ok tail =>
        rcases List.mem_cons.mp hr with rfl | hr'
        · rw [hcell]; rfl
        · exact ih hloop r hr'

theorem filterLoop_ne_columnNotFound {col op : String} {mode : Option ℚ}
    {value : String} {data : List Row} :
    filterLoop col op mode value data ≠ .error .columnNotFound := by
  induction data with
  | nil => intro h; cases h
  | cons row rest ih =>
    intro h
    simp only [filterLoop] at h
    cases hcell : Row.cell row col with
    | none => rw [hcell] at h; cases h
    | some cell =>
      rw [hcell] at h
      cases hloop : filterLoop col op mode value rest with
      | error e => rw [hloop] at h; cases h; exact ih hloop
      | ok tail => rw [hloop] at h; split at h <;> cases h

theorem apply_filter_eq_filter {data : List Row} {col op value : String}
    {first : Row} {rest : List Row}
    (hdata : data = first :: rest)
    (hfirst : (Row.cell first col).isSome)
    (hall : ∀ r ∈ data, (Row.cell r col).isSome) :
    apply_filter data col op value =
      .ok (data.filter (keepRow col op (parseFloat? value) value)) := by
  subst hdata
  rw [apply_filter_cons, if_pos hfirst]
  exact filterLoop_eq_filter hall

/-- **C1.** With the column present in every row: if the operand parses as
a number, `apply_filter` keeps exactly the rows whose cell parses as a
number satisfying the comparison (unparseable cells silently excluded, `=`
strict equality, `>` strictly greater, `<` strictly less), and if the
operand does not parse, it keeps exactly the rows whose cell text
satisfies the comparison (lexicographic `>`/`<`, exact `=`); in both cases
in original relative order (`List.filter`).  Includes the spec's worked
example: `price > 70` over prices 100, 50, 75, 120 keeps 100, 75, 120 in
that order. -/
theorem apply_filter_mode_semantics :
    (∀ (first : Row) (rest : List Row) (col op value : String) (q : ℚ),
      parseFloat? value = some q →
      (∀ r ∈ first :: rest, (Row.cell r col).isSome) →
      apply_filter (first :: rest) col op value =
        .ok ((first :: rest).filter (fun r =>
          match Row.cell r col with
          | none => false
          | some cell =>
            match parseFloat? cell with
            | none => false
            | some c => specNumKeep op c q))) ∧
    (∀ (first : Row) (rest : List Row) (col op value : String),
      parseFloat? value = none →
      (∀ r ∈ first :: rest, (Row.cell r col).isSome) →
      apply_filter (first :: rest) col op value =
        .ok ((first :: rest).filter (fun r =>
          match Row.cell r col with
          | none => false
          | some cell => specTextKeep op cell value))) ∧
    apply_filter exampleRows "price" ">" "70" =
      .ok [[("product", "Apple"), ("price", "100"), ("stock", "50")],
           [("product", "Orange"), ("price", "75"), ("stock", "75")],
           [("product", "Milk"), ("price", "120"), ("stock", "30")]] := by
  refine ⟨fun first rest col op value q hq hall => ?_,
          fun first rest col op value hq hall => ?_,
          by with_unfolding_all rfl⟩
  · rw [apply_filter_eq_filter rfl (hall first (List.mem_cons_self first rest))
      hall, hq]
    congr 1
    apply List.filter_congr
    intro r _
    unfold keepRow
    cases Row.cell r col with
    | none => rfl
    | some cell => exact keepCell_num op value q cell
  · rw [apply_filter_eq_filter rfl (hall first (List.mem_cons_self first rest))
      hall, hq]
    congr 1
    apply List.filter_congr
    intro r _
    unfold keepRow
    cases Row.cell r col with
    | none => rfl
    | some cell => exact keepCell_text op value cell

/-- **C1 witness**: the numeric-mode clause instantiated at the spec's
example table with operand `"70"`. -/
theorem apply_filter_mode_semantics_witness :
    apply_filter exampleRows "price" ">" "70" =
      .ok (exampleRows.filter (fun r =>
        match Row.cell r "price" with
        | none => false
        | some cell =>
          match parseFloat? cell with
          | none => false
          | some c => specNumKeep ">" c 70)) :=
  apply_filter_mode_semantics.1
    [("product", "Apple"), ("price", "100"), ("stock", "50")]
    [[("product", "Banana"), ("price", "50"), ("stock", "100")],
     [("product", "Orange"), ("price", "75"), ("stock", "75")],
     [("product", "Milk"), ("price", "120"), ("stock", "30")]]
    "price" ">" "70" 70 (by with_unfolding_all rfl) (by decide)

/-- **C6.** `apply_filter` on the empty table returns it unchanged for
every column, operator and operand (no column-existence check), and on a
non-empty table fails with `ColumnNotFound` iff the column is absent from
the first row. -/
theorem apply_filter_empty_and_column_check :
    (∀ col op value, apply_filter [] col op value = .ok []) ∧
    (∀ (first : Row) (rest : List Row) (col op value : String),
      apply_filter (first :: rest) col op value = .error .columnNotFound ↔
        Row.cell first col = none) := by
  refine ⟨fun col op value => rfl, fun first rest col op value => ?_⟩
  rw [apply_filter_cons]
  cases hcell : Row.cell first col with
  | none => simp
  | some cell =>
    simp only [Option.isSome_some, if_true]
    constructor
    · intro h; exact absurd h filterLoop_ne_columnNotFound
    · intro h; cases h

/-- **C6 witness**: a one-row table over column `"a"` filtered on the
missing column `"b"` fails with `ColumnNotFound`. -/
theorem apply_filter_empty_and_column_check_witness :
    apply_filter [[("a", "1")]] "b" "=" "1" = .error .columnNotFound :=
  (apply_filter_empty_and_column_check.2 [("a", "1")] [] "b" "=" "1").mpr rfl

/-- **C7.** Whenever `apply_filter` succeeds, its result is a sublist of
the input (relative order preserved) and filtering again with the same
condition returns the result unchanged (idempotence). -/
theorem apply_filter_sublist_idempotent :
    ∀ (data : List Row) (col op value : String) (L : List Row),
      apply_filter data col op value = .ok L →
      L.Sublist data ∧ apply_filter L col op value = .ok L := by
  intro data col op value L h
  cases data with
  | nil =>
    cases h
    exact ⟨List.Sublist.refl [], rfl⟩
  | cons first rest =>
    rw [apply_filter_cons] at h
    by_cases hfirst : (Row.cell first col).isSome
    · rw [if_pos hfirst] at h
      have hall := filterLoop_ok_forall h
      rw [filterLoop_eq_filter hall] at h
      have hL : L = (first :: rest).filter
          (keepRow col op (parseFloat? value) value) := by
        cases h; rfl
      have hsub : L.Sublist (first :: rest) := hL ▸ List.filter_sublist _
      refine ⟨hsub, ?_⟩
      cases hLc : L with
      | nil => rfl
      | cons x xs =>
        have hmemL : ∀ r ∈ L, (Row.cell r col).isSome :=
          fun r hr => hall r (hsub.subset hr)
        have hx : x ∈ L := by rw [hLc]; exact List.mem_cons_self x xs
        rw [← hLc]
        rw [apply_filter_eq_filter hLc (hmemL x hx) hmemL]
        rw [hL, List.filter_filter]
        have heq : ((first :: rest).filter (fun a =>
            keepRow col op (parseFloat? value) value a &&
            keepRow col op (parseFloat? value) value a)) =
            ((first :: rest).filter
              (keepRow col op (parseFloat? value) value)) := by
          apply List.filter_congr
          intro r _
          exact Bool.and_self _
        rw [heq]
    · rw [if_neg hfirst] at h
      cases h

/-- **C7 witness**: the sublist-and-idempotence property instantiated at
the spec's worked example. -/
theorem apply_filter_sublist_idempotent_witness :
    ([[("product", "Apple"), ("price", "100"), ("stock", "50")],
      [("product", "Orange"), ("price", "75"), ("stock", "75")],
      [("product", "Milk"), ("price", "120"), ("stock", "30")]] :
        List Row).Sublist exampleRows ∧
    apply_filter
      [[("product", "Apple"), ("price", "100"), ("stock", "50")],
       [("product", "Orange"), ("price", "75"), ("stock", "75")],
       [("product", "Milk"), ("price", "120"), ("stock", "30")]]
      "price" ">" "70" =
      .ok [[("product", "Apple"), ("price", "100"), ("stock", "50")],
           [("product", "Orange"), ("price", "75"), ("stock", "75")],
           [("product", "Milk"), ("price", "120"), ("stock", "30")]] :=
  apply_filter_sublist_idempotent exampleRows "price" ">" "70" _
    (by with_unfolding_all rfl)
/-! ### The aggregate evaluator -/

theorem parseCell_none {col : String} {row : Row}
    (h : Row.cell row col = none) : parseCell col row = .error .keyError := by
  unfold parseCell
  rw [h]

theorem parseCell_bad {col : String} {row : Row} {cell : String}
    (hc : Row.cell row col = some cell) (hp : parseFloat? cell = none) :
    parseCell col row = .error .nonNumericValue := by
  unfold parseCell
  rw [hc]
  show (match parseFloat? cell with
        | none => Except.error Err.nonNumericValue
        | some q => Except.ok q) = _
  rw [hp]

theorem parseCell_good {col : String} {row : Row} {cell : String} {q : ℚ}
    (hc : Row.cell row col = some cell) (hp : parseFloat? cell = some q) :
    parseCell col row = .ok q := by
  unfold parseCell
  rw [hc]
  show (match parseFloat? cell with
        | none => Except.error Err.nonNumericValue
        | some q => Except.ok q) = _
  rw [hp]

theorem parseCell_ok_inv {col : String} {row : Row} {q : ℚ}
    (h : parseCell col row = .ok q) :
    ∃ cell, Row.cell row col = some cell ∧ parseFloat? cell = some q := by
  cases hc : Row.cell row col with
  | none => rw [parseCell_none hc] at h; cases h
  | some cell =>
    cases hp : parseFloat? cell with
    | none => rw [parseCell_bad hc hp] at h; cases h
    | some c => rw [parseCell_good hc hp] at h; cases h; exact ⟨cell, rfl, hp⟩

theorem parseCell_error_inv {col : String} {row : Row} {e : Err}
    (h : parseCell col row = .error e) :
    e = .keyError ∨ e = .nonNumericValue := by
  cases hc : Row.cell row col with
  | none => rw [parseCell_none hc] at h; cases h; exact Or.inl rfl
  | some cell =>
    cases hp : parseFloat? cell with
    | none => rw [parseCell_bad hc hp] at h; cases h; exact Or.inr rfl
    | some c => rw [parseCell_good hc hp] at h; cases h

theorem parseCells_eq_ok_iff {col : String} {data : List Row} {vs : List ℚ} :
    parseCells col data = .ok vs ↔
      data.mapM (fun r => (Row.cell r col).bind parseFloat?) = some vs := by
  induction data generalizing vs with
  | nil =>
    constructor
    · intro h; cases h; rfl
    · intro h; cases h; rfl
  | cons row rest ih =>
    simp only [parseCells, List.mapM_cons]
    cases hc : Row.cell row col with
    | none =>
      rw [parseCell_none hc]
      simp
    | some cell =>
      cases hp : parseFloat? cell with
      | none =>
        rw [parseCell_bad hc hp]
        simp [hp]
      | some q =>
        rw [parseCell_good hc hp]
        cases hrec : parseCells col rest with
        | error e =>
          cases hmap : rest.mapM (fun r => (Row.cell r col).bind parseFloat?)
            with
          | none => simp [hp, hmap]
          | some qs =>
            have hcontra := ih.mpr hmap
            rw [hrec] at hcontra
            cases hcontra
        | ok qs =>
          have hmap := ih.mp hrec
          have hmap' : List.mapM.loop
              (fun r => (Row.cell r col).bind parseFloat?) rest [] =
              some qs := hmap
          simp [hp, hmap, hmap']

theorem parseCells_ok_forall {col : String} {data : List Row} {vs : List ℚ}
    (h : parseCells col data = .ok vs) :
    ∀ r ∈ data, ∃ cell q, Row.cell r col = some cell ∧
      parseFloat? cell = some q := by
  induction data generalizing vs with
  | nil => intro r hr; cases hr
  | cons row rest ih =>
    intro r hr
    simp only [parseCells] at h
    cases hpc : parseCell col row with
    | error e => rw [hpc] at h; cases h
    | ok q =>
      rw [hpc] at h
      cases hrec : parseCells col rest with
      | error e => rw [hrec] at h; cases h
      | ok qs =>
        rcases List.mem_cons.mp hr with rfl | hr'
        · obtain ⟨cell, hcc, hpp⟩ := parseCell_ok_inv hpc
          exact ⟨cell, q, hcc, hpp⟩
        · exact ih hrec r hr'

theorem parseCells_nonNumeric {col : String} {data : List Row}
    (hall : ∀ r ∈ data, (Row.cell r col).isSome)
    (hbad : ∃ r ∈ data, ∃ cell, Row.cell r col = some cell ∧
      parseFloat? cell = none) :
    parseCells col data = .error .nonNumericValue := by
  induction data with
  | nil => obtain ⟨r, hr, _⟩ := hbad; cases hr
  | cons row rest ih =>
    simp only [parseCells]
    obtain ⟨cell, hcell⟩ := Option.isSome_iff_exists.mp
      (hall row (List.mem_cons_self row rest))
    cases hp : parseFloat? cell with
    | none => rw [parseCell_bad hcell hp]
    | some q =>
      rw [parseCell_good hcell hp]
      have hbad' : ∃ r ∈ rest, ∃ c, Row.cell r col = some c ∧
          parseFloat? c = none := by
        obtain ⟨r, hr, c, hrc, hrp⟩ := hbad
        rcases List.mem_cons.mp hr with rfl | hr'
        · rw [hcell] at hrc
          cases hrc
          rw [hp] at hrp
          cases hrp
        · exact ⟨r, hr', c, hrc, hrp⟩
      rw [ih (fun r hr => hall r (List.mem_cons_of_mem row hr)) hbad']

theorem parseCells_error_inv {col : String} {data : List Row} {e : Err}
    (h : parseCells col data = .error e) :
    e = .keyError ∨ e = .nonNumericValue := by
  induction data generalizing e with
  | nil => cases h
  | cons row rest ih =>
    simp only [parseCells] at h
    cases hpc : parseCell col row with
    | error e' =>
      rw [hpc] at h
      cases h
      exact parseCell_error_inv hpc
    | ok q =>
      rw [hpc] at h
      cases hrec : parseCells col rest with
      | error e' => rw [hrec] at h; cases h; exact ih hrec
      | ok qs => rw [hrec] at h; cases h

theorem parseCells_ok_of_forall {col : String} {data : List Row}
    (h : ∀ r ∈ data, ((Row.cell r col).bind parseFloat?).isSome) :
    ∃ vs, parseCells col data = .ok vs := by
  induction data with
  | nil => exact ⟨[], rfl⟩
  | cons row rest ih =>
    have hrow := h row (List.mem_cons_self row rest)
    obtain ⟨cell, hc⟩ : ∃ cell, Row.cell row col = some cell := by
      cases hcc : Row.cell row col with
      | none => rw [hcc] at hrow; cases hrow
      | some cell => exact ⟨cell, rfl⟩
    obtain ⟨q, hp⟩ : ∃ q, parseFloat? cell = some q := by
      rw [hc] at hrow
      simp only [Option.some_bind] at hrow
      exact Option.isSome_iff_exists.mp hrow
    obtain ⟨vs, hvs⟩ := ih (fun r hr => h r (List.mem_cons_of_mem row hr))
    refine ⟨q :: vs, ?_⟩
    simp only [parseCells]
    rw [parseCell_good hc hp, hvs]

theorem apply_agg_cons (first : Row) (rest : List Row) (col func : String) :
    apply_agg (first :: rest) col func =
      if (Row.cell first col).isSome then
        match parseCells col (first :: rest) with
        | .error e => .error e
        | .ok values => aggOfValues func values
      else .error .columnNotFound := rfl

theorem apply_agg_dispatch {data : List Row} {first : Row} {rest : List Row}
    {col : String} {values : List ℚ}
    (hdata : data = first :: rest)
    (hfirst : (Row.cell first col).isSome)
    (hcells : parseCells col data = .ok values) (func : String) :
    apply_agg data col func = aggOfValues func values := by
  subst hdata
  rw [apply_agg_cons, if_pos hfirst]
  simp only [hcells]

theorem foldl_min_mem (xs : List ℚ) : ∀ x : ℚ, xs.foldl min x ∈ x :: xs := by
  induction xs with
  | nil => intro x; exact List.mem_cons_self x []
  | cons a as ih =>
    intro x
    show as.foldl min (min x a) ∈ x :: a :: as
    rcases List.mem_cons.mp (ih (min x a)) with h | h
    · rw [h]
      rcases min_choice x a with hm | hm <;> rw [hm]
      · exact List.mem_cons_self x (a :: as)
      · exact List.mem_cons_of_mem x (List.mem_cons_self a as)
    · exact List.mem_cons_of_mem x (List.mem_cons_of_mem a h)

theorem foldl_min_le (xs : List ℚ) :
    ∀ x : ℚ, ∀ y ∈ x :: xs, xs.foldl min x ≤ y := by
  induction xs with
  | nil =>
    intro x y hy
    rcases List.mem_cons.mp hy with rfl | h
    · exact le_refl y
    · cases h
  | cons a as ih =>
    intro x y hy
    show as.foldl min (min x a) ≤ y
    have hhead := ih (min x a) (min x a) (List.mem_cons_self _ _)
    rcases List.mem_cons.mp hy with rfl | hy'
    · exact le_trans hhead (min_le_left _ _)
    · rcases List.mem_cons.mp hy' with rfl | hy''
      · exact le_trans hhead (min_le_right _ _)
      · exact ih (min x a) y (List.mem_cons_of_mem _ hy'')

theorem foldl_max_mem (xs : List ℚ) : ∀ x : ℚ, xs.foldl max x ∈ x :: xs := by
  induction xs with
  | nil => intro x; exact List.mem_cons_self x []
  | cons a as ih =>
    intro x
    show as.foldl max (max x a) ∈ x :: a :: as
    rcases List.mem_cons.mp (ih (max x a)) with h | h
    · rw [h]
      rcases max_choice x a with hm | hm <;> rw [hm]
      · exact List.mem_cons_self x (a :: as)
      · exact List.mem_cons_of_mem x (List.mem_cons_self a as)
    · exact List.mem_cons_of_mem x (List.mem_cons_of_mem a h)

theorem foldl_max_le (xs : List ℚ) :
    ∀ x : ℚ, ∀ y ∈ x :: xs, y ≤ xs.foldl max x := by
  induction xs with
  | nil =>
    intro x y hy
    rcases List.mem_cons.mp hy with rfl | h
    · exact le_refl y
    · cases h
  | cons a as ih =>
    intro x y hy
    show y ≤ as.foldl max (max x a)
    have hhead := ih (max x a) (max x a) (List.mem_cons_self _ _)
    rcases List.mem_cons.mp hy with rfl | hy'
    · exact le_trans (le_max_left _ _) hhead
    · rcases List.mem_cons.mp hy' with rfl | hy''
      · exact le_trans (le_max_right _ _) hhead
      · exact ih (max x a) y (List.mem_cons_of_mem _ hy'')

/-- **C2.** Over a non-empty table whose cells in the column all parse as
numbers (with values `v :: vs`): `avg` returns the arithmetic mean rounded
to 2 decimal places, and `min`/`max` return the minimum/maximum of the
values as plain values of the list (no rounding).  Includes the spec's
worked example over prices 100, 50, 75, 120: avg 86.25, min 50, max 120. -/
theorem apply_agg_avg_min_max :
    (∀ (first : Row) (rest : List Row) (col : String) (v : ℚ) (vs : List ℚ),
      (first :: rest).mapM (fun r => (Row.cell r col).bind parseFloat?) =
        some (v :: vs) →
      (apply_agg (first :: rest) col "avg" =
        .ok (some (round2 ((v :: vs).sum / ((v :: vs).length : ℚ)))) ∧
       (∃ m, apply_agg (first :: rest) col "min" = .ok (some m) ∧
         m ∈ v :: vs ∧ ∀ y ∈ v :: vs, m ≤ y) ∧
       (∃ m, apply_agg (first :: rest) col "max" = .ok (some m) ∧
         m ∈ v :: vs ∧ ∀ y ∈ v :: vs, y ≤ m))) ∧
    apply_agg exampleRows "price" "avg" = .ok (some 86.25) ∧
    apply_agg exampleRows "price" "min" = .ok (some 50) ∧
    apply_agg exampleRows "price" "max" = .ok (some 120) := by
  refine ⟨fun first rest col v vs hmap => ?_,
    by with_unfolding_all rfl, by with_unfolding_all rfl,
    by with_unfolding_all rfl⟩
  have hcells : parseCells col (first :: rest) = .ok (v :: vs) :=
    parseCells_eq_ok_iff.mpr hmap
  have hfirst : (Row.cell first col).isSome := by
    obtain ⟨cell, q, hc, _⟩ :=
      parseCells_ok_forall hcells first (List.mem_cons_self first rest)
    rw [hc]
    rfl
  refine ⟨?_, ⟨vs.foldl min v, ?_, foldl_min_mem vs v, foldl_min_le vs v⟩,
    ⟨vs.foldl max v, ?_, foldl_max_mem vs v, foldl_max_le vs v⟩⟩
  · rw [apply_agg_dispatch rfl hfirst hcells]
    rfl
  · rw [apply_agg_dispatch rfl hfirst hcells]
    rfl
  · rw [apply_agg_dispatch rfl hfirst hcells]
    rfl

/-- **C2 witness**: the general clause instantiated at the spec's example
table (avg over prices 100, 50, 75, 120). -/
theorem apply_agg_avg_min_max_witness :
    apply_agg exampleRows "price" "avg" =
      .ok (some (round2 (([100, 50, 75, 120] : List ℚ).sum /
        (([100, 50, 75, 120] : List ℚ).length : ℚ)))) :=
  (apply_agg_avg_min_max.1
    [("product", "Apple"), ("price", "100"), ("stock", "50")]
    [[("product", "Banana"), ("price", "50"), ("stock", "100")],
     [("product", "Orange"), ("price", "75"), ("stock", "75")],
     [("product", "Milk"), ("price", "120"), ("stock", "30")]]
    "price" 100 [50, 75, 120] (by with_unfolding_all rfl)).1

/-- **C5.** Over a non-empty table whose rows all carry the column, if any
cell of the column fails to parse as a number, `apply_agg` fails with
`NonNumericValue` for every function name — no partial aggregate. -/
theorem apply_agg_nonnumeric_aborts :
    ∀ (first : Row) (rest : List Row) (col func : String),
      (∀ r ∈ first :: rest, (Row.cell r col).isSome) →
      (∃ r ∈ first :: rest, ∃ cell, Row.cell r col = some cell ∧
        parseFloat? cell = none) →
      apply_agg (first :: rest) col func = .error .nonNumericValue := by
  intro first rest col func hall hbad
  have hfirst := hall first (List.mem_cons_self first rest)
  rw [apply_agg_cons, if_pos hfirst]
  simp only [parseCells_nonNumeric hall hbad]

/-- **C5 witness**: a one-row table whose `price` cell is `"abc"`. -/
theorem apply_agg_nonnumeric_aborts_witness :
    apply_agg [[("price", "abc")]] "price" "avg" =
      .error .nonNumericValue := by
  apply apply_agg_nonnumeric_aborts
  · intro r hr
    rcases List.mem_cons.mp hr with rfl | h
    · rfl
    · cases h
  · exact ⟨[("price", "abc")], List.mem_cons_self _ _, "abc", rfl,
      by with_unfolding_all rfl⟩

/-- **C8.** `apply_agg` on the empty table returns `none` ("absent", not an
error) for every column name and every function name; the empty-table check
precedes all validation. -/
theorem apply_agg_empty_absent :
    ∀ col func : String, apply_agg [] col func = .ok none :=
  fun _ _ => rfl

/-- **C9 counterexample**: the claim as stated fails on the code.  The
one-row table `{price: "abc"}` is non-empty and its first row contains
`price`, and `"median"` is not one of `avg`/`min`/`max`, yet `apply_agg`
fails with `NonNumericValue`, not `UnknownFunction`: the numeric conversion
happens before the function name is examined. -/
theorem apply_agg_unknown_function_cex :
    (Row.cell [("price", "abc")] "price").isSome = true ∧
    apply_agg [[("price", "abc")]] "price" "median" =
      .error .nonNumericValue ∧
    (Except.error Err.nonNumericValue : Except Err (Option ℚ)) ≠
      .error .unknownFunction := by
  refine ⟨rfl, by with_unfolding_all rfl, ?_⟩
  intro h
  injection h with h'
  cases h'

/-- **C9 (amended).** For every non-empty table whose cells in the column
all parse as numbers, `apply_agg` with any function name other than `avg`,
`min`, `max` fails with `UnknownFunction`. -/
theorem apply_agg_unknown_function :
    ∀ (first : Row) (rest : List Row) (col func : String),
      (∀ r ∈ first :: rest, ((Row.cell r col).bind parseFloat?).isSome) →
      func ≠ "avg" → func ≠ "min" → func ≠ "max" →
      apply_agg (first :: rest) col func = .error .unknownFunction := by
  intro first rest col func hall h1 h2 h3
  obtain ⟨vs, hvs⟩ := parseCells_ok_of_forall hall
  have hfirst : (Row.cell first col).isSome := by
    have hr := hall first (List.mem_cons_self first rest)
    cases hcc : Row.cell first col with
    | none => rw [hcc] at hr; cases hr
    | some cell => rfl
  rw [apply_agg_dispatch rfl hfirst hvs]
  unfold aggOfValues
  rw [if_neg h1, if_neg h2, if_neg h3]

/-- **C9 witness**: the amended claim at the numeric one-row table
`{price: "1"}` with function name `"median"`. -/
theorem apply_agg_unknown_function_witness :
    apply_agg [[("price", "1")]] "price" "median" =
      .error .unknownFunction := by
  apply apply_agg_unknown_function
  · intro r hr
    rcases List.mem_cons.mp hr with rfl | h
    · with_unfolding_all rfl
    · cases h
  · decide
  · decide
  · decide

/-- **C10.** In `apply_agg` the numeric conversion of every cell happens
before the function name is examined: a non-numeric cell yields
`NonNumericValue` regardless of the function name, and `UnknownFunction` is
reachable only when every cell of the column parses as a number. -/
theorem apply_agg_conversion_before_dispatch :
    (∀ (first : Row) (rest : List Row) (col func : String),
      (∀ r ∈ first :: rest, (Row.cell r col).isSome) →
      (∃ r ∈ first :: rest, ∃ cell, Row.cell r col = some cell ∧
        parseFloat? cell = none) →
      apply_agg (first :: rest) col func = .error .nonNumericValue) ∧
    (∀ (data : List Row) (col func : String),
      apply_agg data col func = .error .unknownFunction →
      ∀ r ∈ data, ∃ cell q, Row.cell r col = some cell ∧
        parseFloat? cell = some q) := by
  constructor
  · intro first rest col func hall hbad
    have hfirst := hall first (List.mem_cons_self first rest)
    rw [apply_agg_cons, if_pos hfirst]
    simp only [parseCells_nonNumeric hall hbad]
  · intro data col func h r hr
    cases data with
    | nil => cases hr
    | cons first rest =>
      rw [apply_agg_cons] at h
      by_cases hfirst : (Row.cell first col).isSome
      · rw [if_pos hfirst] at h
        cases hcells : parseCells col (first :: rest) with
        | error e =>
          rw [hcells] at h
          have h' : (Except.error e : Except Err (Option ℚ)) =
              .error .unknownFunction := h
          cases h'
          rcases parseCells_error_inv hcells with he | he <;> cases he
        | ok values => exact parseCells_ok_forall hcells r hr
      · rw [if_neg hfirst] at h
        cases h

/-- **C10 witness**: the conversion-first clause at the one-row table
`{price: "abc"}` with the unrecognised function name `"bogus"`. -/
theorem apply_agg_conversion_before_dispatch_witness :
    apply_agg [[("price", "abc")]] "price" "bogus" =
      .error .nonNumericValue := by
  apply apply_agg_conversion_before_dispatch.1
  · intro r hr
    rcases List.mem_cons.mp hr with rfl | h
    · rfl
    · cases h
  · exact ⟨[("price", "abc")], List.mem_cons_self _ _, "abc", rfl,
      by with_unfolding_all rfl⟩

end CsvProc
